import Mathlib

/-!
Verification of the `geekip/mux` HTTP router (trie-based path matcher).

This file shallowly embeds the router's current implementation
(`trie.go`: the `(*node, error)` variant with string-keyed children,
together with `mux.go`'s `ServeHTTP` / `Params`) and proves the frozen
claims about it.

Modelling conventions:
- Go strings are Lean `String`s, but every Go `strings.*` operation is
  re-implemented over `String.data` (`List Char`) so that all proofs
  reduce inside the kernel.  The router only manipulates ASCII pattern
  text, where Go's byte slicing coincides with character slicing.
- Go maps (`map[string]*node`, `map[string]http.Handler`,
  `map[string]string`) are association lists with lookup and
  update-or-insert; the router never depends on iteration order of
  these maps.
- `http.Handler` is an arbitrary type `α`; the Go interface value `nil`
  is `Option.none`, so handler slots are `Option α` and a middleware
  (`func(http.Handler) http.Handler`) is `Option α → Option α`.
- Go's in-place mutation is explicit state passing: `add` returns the
  updated root (or the registration error), `findTree` returns the tree
  as it stands after a `find` call, and `find` returns what the Go
  function returns (the matched node, whose `params`/`handler` fields
  were just written).
- `regexp.MustCompile("^" ++ pat ++ "$").MatchString seg` is embedded as
  a whole-segment match of `pat` against `seg`: a small regular
  expression datatype with Brzozowski-derivative matching, plus a
  parser for the fragment the routes use (literals, `[lo-hi]` classes,
  `+`, `*`).  The `^`/`$` anchoring that `makeRegexp` adds is exactly
  what makes `MatchString` a whole-string match.
-/

namespace Mux

/-! ### Character-level string operations (Go `strings` package) -/

/-- Core of Go `strings.HasPrefix`: is the second list a prefix of the first? -/
def chHasPre : List Char → List Char → Bool
  | _, [] => true
  | [], _ :: _ => false
  | c :: cs, p :: ps => c = p && chHasPre cs ps

/-- Go `strings.HasPrefix s pre`. -/
def goStartsWith (s pre : String) : Bool := chHasPre s.data pre.data

/-- Go `strings.HasSuffix s suf`. -/
def goEndsWith (s suf : String) : Bool := chHasPre s.data.reverse suf.data.reverse

/-- Core of Go `strings.Split` for a one-character separator. -/
def chSplit (sep : Char) : List Char → List (List Char)
  | [] => [[]]
  | c :: rest =>
    if c = sep then [] :: chSplit sep rest
    else
      match chSplit sep rest with
      | [] => [[c]]
      | h :: t => (c :: h) :: t

/-- Go `strings.Split s sep` (the router always splits on `"/"` or `":"`,
both one character long). -/
def goSplit (sep : Char) (s : String) : List String :=
  (chSplit sep s.data).map String.mk

/-- Split at the first occurrence of `sep`, if any. -/
def chSplitFirst (sep : Char) : List Char → Option (List Char × List Char)
  | [] => none
  | c :: rest =>
    if c = sep then some ([], rest)
    else
      match chSplitFirst sep rest with
      | none => none
      | some (a, b) => some (c :: a, b)

/-- Go `strings.SplitN s sep 2`. -/
def splitN2 (sep : Char) (s : String) : List String :=
  match chSplitFirst sep s.data with
  | none => [s]
  | some (a, b) => [String.mk a, String.mk b]

/-- Go `segment[1 : len(segment)-1]` (strip one leading and one trailing
character; byte slicing and character slicing agree on the ASCII pattern
text the router handles). -/
def innerOf (s : String) : String := String.mk ((s.data.drop 1).dropLast)

/-- Go `strings.Join l sep`. -/
def goJoin (sep : String) : List String → String
  | [] => ""
  | [x] => x
  | x :: rest => x ++ sep ++ goJoin sep rest

/-! ### The marker constants of `trie.go` -/

def prefixRegexp : String := ":"
def prefixWildcard : String := "*"
def prefixParam : String := "\x7b"
def suffixParam : String := "\x7d"

/-! ### Go `regexp` for the fragment the routes use

`makeRegexp pat` compiles `"^" ++ pat ++ "$"`; on a pattern without
anchors of its own this is precisely a whole-string match of `pat`.
The node stores the pattern text (the Go cache is keyed by that text and
compilation is pure), and matching parses and runs it. -/

/-- Regular expressions: empty language, empty string, one literal
character, a character range `[lo-hi]`, concatenation, alternation,
Kleene star. -/
inductive Regex : Type where
  | emp : Regex
  | eps : Regex
  | lit (c : Char) : Regex
  | cls (lo hi : Char) : Regex
  | seq (a b : Regex) : Regex
  | alt (a b : Regex) : Regex
  | star (a : Regex) : Regex
deriving DecidableEq

/-- Does the regex accept the empty string? -/
def nullable : Regex → Bool
  | .emp => false
  | .eps => true
  | .lit _ => false
  | .cls _ _ => false
  | .seq a b => nullable a && nullable b
  | .alt a b => nullable a || nullable b
  | .star _ => true

/-- Brzozowski derivative of a regex by a character. -/
def deriv : Regex → Char → Regex
  | .emp, _ => .emp
  | .eps, _ => .emp
  | .lit c, x => if x = c then .eps else .emp
  | .cls lo hi, x => if lo ≤ x ∧ x ≤ hi then .eps else .emp
  | .seq a b, x =>
    if nullable a then .alt (.seq (deriv a x) b) (deriv b x)
    else .seq (deriv a x) b
  | .alt a b, x => .alt (deriv a x) (deriv b x)
  | .star a, x => .seq (deriv a x) (.star a)

/-- Whole-string regex match (this is what the `^…$` anchors that
`makeRegexp` adds turn `MatchString` into). -/
def rmatch (r : Regex) (s : String) : Bool :=
  nullable (s.data.foldl deriv r)

/-- Parse one atom: a `[lo-hi]` character class or a plain literal
character.  Metacharacters outside the supported fragment are rejected. -/
def parseAtom : List Char → Option (Regex × List Char)
  | '[' :: c1 :: '-' :: c2 :: ']' :: rest => some (.cls c1 c2, rest)
  | c :: rest =>
    if c = '[' || c = ']' || c = '+' || c = '*' || c = '(' || c = ')' ||
       c = '|' || c = '.' || c = '?' || c = '^' || c = '$' || c = '\\' then none
    else some (.lit c, rest)
  | [] => none

/-- Apply a postfix `+` or `*` to a parsed atom if one follows. -/
def applyPost (r : Regex) : List Char → Regex × List Char
  | '+' :: rest => (.seq r (.star r), rest)
  | '*' :: rest => (.star r, rest)
  | rest => (r, rest)

/-- Parse a concatenation of postfixed atoms (fuelled; each step consumes
at least one character). -/
def parseSeq : Nat → List Char → Option Regex
  | _, [] => some .eps
  | 0, _ :: _ => none
  | fuel + 1, cs =>
    match parseAtom cs with
    | none => none
    | some (a, rest) =>
      match applyPost a rest with
      | (a2, rest2) =>
        match parseSeq fuel rest2 with
        | none => none
        | some r => some (.seq a2 r)

/-- Compile a Go regex pattern text (of the supported fragment). -/
def compileRegex (s : String) : Option Regex :=
  parseSeq (s.data.length + 1) s.data

/-- `makeRegexp pat |>.MatchString seg` for the anchored pattern
`"^" ++ pat ++ "$"`: a whole-segment match. -/
def reMatch (pat seg : String) : Bool :=
  match compileRegex pat with
  | some r => rmatch r seg
  | none => false

/-! ### Association lists standing in for Go maps -/

/-- Go map read `m[k]` (`none` is the missing / `nil` zero value). -/
def getAssoc {β : Type} : List (String × β) → String → Option β
  | [], _ => none
  | (k, v) :: t, key => if k = key then some v else getAssoc t key

/-- Go map write `m[k] = v` (replace if present, insert otherwise). -/
def setAssoc {β : Type} : List (String × β) → String → β → List (String × β)
  | [], key, v => [(key, v)]
  | (k, w) :: t, key, v =>
    if k = key then (key, v) :: t else (k, w) :: setAssoc t key v

/-! ### The trie node (`type node struct` of `trie.go`) -/

/-- A middleware: `func(http.Handler) http.Handler`, where the interface
value may be `nil` (`none`). -/
def Mw (α : Type) : Type := Option α → Option α

/-- The routing-trie node.  Field for field the Go struct:
`handler`, `middlewares`, `methods`, `children`, `params`, `paramName`,
`paramNode`, `regex` (the cached pattern text), `isEnd`. -/
inductive Node (α : Type) : Type where
  | mk (handler : Option α) (middlewares : List (Mw α))
       (methods : List (String × α)) (children : List (String × Node α))
       (params : List (String × String)) (paramName : String)
       (paramNode : Option (Node α)) (regex : Option String)
       (isEnd : Bool) : Node α

def Node.handler {α : Type} : Node α → Option α
  | .mk h _ _ _ _ _ _ _ _ => h

def Node.middlewares {α : Type} : Node α → List (Mw α)
  | .mk _ mws _ _ _ _ _ _ _ => mws

def Node.methods {α : Type} : Node α → List (String × α)
  | .mk _ _ ms _ _ _ _ _ _ => ms

def Node.children {α : Type} : Node α → List (String × Node α)
  | .mk _ _ _ cs _ _ _ _ _ => cs

def Node.params {α : Type} : Node α → List (String × String)
  | .mk _ _ _ _ ps _ _ _ _ => ps

def Node.paramName {α : Type} : Node α → String
  | .mk _ _ _ _ _ pn _ _ _ => pn

def Node.paramNode {α : Type} : Node α → Option (Node α)
  | .mk _ _ _ _ _ _ pno _ _ => pno

def Node.regex {α : Type} : Node α → Option String
  | .mk _ _ _ _ _ _ _ re _ => re

def Node.isEnd {α : Type} : Node α → Bool
  | .mk _ _ _ _ _ _ _ _ e => e

/-- `newNode()`: all collections empty, no parameter child, not terminal. -/
def newNode {α : Type} : Node α := .mk none [] [] [] [] "" none none false

/-- Replace the `children` map (Go `n.children[seg] = child` rebuilt
functionally). -/
def Node.withChildren {α : Type} : Node α → List (String × Node α) → Node α
  | .mk h mws ms _ ps pn pno re e, cs => .mk h mws ms cs ps pn pno re e

/-- Replace the `paramNode` pointer. -/
def Node.withParamNode {α : Type} : Node α → Node α → Node α
  | .mk h mws ms cs ps pn _ re e, p => .mk h mws ms cs ps pn (some p) re e

/-- The terminal write of `find`: `n.params = params; n.handler = handler`. -/
def Node.setScratch {α : Type} :
    Node α → List (String × String) → Option α → Node α
  | .mk _ mws ms cs _ pn pno re e, ps, h => .mk h mws ms cs ps pn pno re e

/-- The terminal write of `add`: `current.isEnd = true`,
`current.methods[method] = handler`,
`current.middlewares = append(n.middlewares, middlewares...)` — note that
the Go code appends to the *receiver* `n`'s (the root's) middleware list
and assigns the result, so the stored list is passed in whole here. -/
def Node.finalize {α : Type} (method : String) (h : α) (mwsAll : List (Mw α)) :
    Node α → Node α
  | .mk hd _ ms cs ps pn pno re _ =>
    .mk hd mwsAll (setAssoc ms method h) cs ps pn pno re true

/-! ### Registration (`func (n *node) add` of `trie.go`) -/

/-- The segment walk of `add`.  `rootMws` is the middleware list of the
*receiver* node (read by the final `append(n.middlewares, ...)`), `i`
counts every raw segment of the split (empty ones included) and
`lastIdx` is `len(segments) - 1`. -/
def addSegs {α : Type} (rootMws : List (Mw α)) (method : String) (h : α)
    (mws : List (Mw α)) :
    Node α → List String → Nat → Nat → Except String (Node α)
  | node, [], _, _ => .ok (node.finalize method h (rootMws ++ mws))
  | node, seg :: rest, i, lastIdx =>
    if seg = "" then addSegs rootMws method h mws node rest (i + 1) lastIdx
    else if goStartsWith seg prefixParam && goEndsWith seg suffixParam then
      let parts := splitN2 ':' (innerOf seg)
      let pName := parts.headD ""
      if goStartsWith pName prefixWildcard && decide (i ≠ lastIdx) then
        .error ("router wildcard " ++ seg ++ " must be the last segment")
      else
        let p := match node.paramNode with
          | some p => p
          | none => .mk none [] [] [] [] pName none parts[1]? false
        Except.map node.withParamNode (addSegs rootMws method h mws p rest (i + 1) lastIdx)
    else
      let child := (getAssoc node.children seg).getD newNode
      Except.map (fun c2 => node.withChildren (setAssoc node.children seg c2))
        (addSegs rootMws method h mws child rest (i + 1) lastIdx)

/-- `add(method, pattern, handler, middlewares)` called on root `n`,
returning the updated root (Go mutates `n` in place and returns the
terminal node; the terminal is recoverable from the root, and `.error`
is Go's non-nil error return). -/
def add {α : Type} (n : Node α) (method pattern : String) (handler : Option α)
    (mws : List (Mw α)) : Except String (Node α) :=
  if method = "" || pattern = "" || handler.isNone then .error "mux handle error"
  else
    match handler with
    | none => .error "mux handle error"
    | some h =>
      let segs := goSplit '/' pattern
      addSegs n.middlewares method h mws n segs 0 (segs.length - 1)

/-! ### Lookup (`func (n *node) find` of `trie.go`) -/

/-- `handler := n.methods[method]; if handler == nil { handler =
n.methods["*"] }`. -/
def resolveHandler {α : Type} (methods : List (String × α)) (method : String) :
    Option α :=
  match getAssoc methods method with
  | some h => some h
  | none => getAssoc methods prefixWildcard

/-- The middleware loop `for i := len-1; i >= 0; i-- { handler =
mws[i](handler) }`: the last middleware is applied first (innermost),
index 0 last (outermost). -/
def applyMws {α : Type} (mws : List (Mw α)) (h : Option α) : Option α :=
  mws.foldr (fun m acc => m acc) h

/-- `paramNode.regex != nil && !paramNode.regex.MatchString(segment)`
aborts the lookup; absence of a regex always accepts. -/
def regexOk (re : Option String) (seg : String) : Bool :=
  match re with
  | none => true
  | some t => reMatch t seg

/-- The postlude of `find` after the loop: on a terminal node resolve the
method handler, wrap it, and write `params`/`handler` onto the node.
Returns (returned node, node as left in the tree) — in Go these are the
same pointer. -/
def finish {α : Type} (method : String) (node : Node α)
    (params : List (String × String)) : Option (Node α × Node α) :=
  if node.isEnd then
    let t := node.setScratch params (applyMws node.middlewares
      (resolveHandler node.methods method))
    some (t, t)
  else none

/-- The segment loop of `find`.  Returns `(returned node, updated
subtree)`, or `none` when Go returns `nil` (in which case nothing was
written).  A static child consuming the whole segment is tried first;
otherwise the parameter child (with regex gate, wildcard capture of
`strings.Join(segments[i:], "/")`, or single-segment capture); otherwise
fail. -/
def findSegs {α : Type} (method : String) :
    Node α → List String → List (String × String) → Option (Node α × Node α)
  | node, [], params => finish method node params
  | node, seg :: rest, params =>
    if seg = "" then findSegs method node rest params
    else
      match getAssoc node.children seg with
      | some child =>
        match findSegs method child rest params with
        | some (res, c2) => some (res, node.withChildren (setAssoc node.children seg c2))
        | none => none
      | none =>
        match node.paramNode with
        | some p =>
          if regexOk p.regex seg then
            if goStartsWith p.paramName prefixWildcard then
              match finish method p
                  (setAssoc params p.paramName (goJoin "/" (seg :: rest))) with
              | some (res, p2) => some (res, node.withParamNode p2)
              | none => none
            else
              match findSegs method p rest (setAssoc params p.paramName seg) with
              | some (res, p2) => some (res, node.withParamNode p2)
              | none => none
          else none
        | none => none

/-- `find(method, url)`: the node the Go function returns (`none` = `nil`). -/
def find {α : Type} (n : Node α) (method url : String) : Option (Node α) :=
  (findSegs method n (goSplit '/' url) []).map Prod.fst

/-- The routing tree as it stands after a `find` call (Go mutates the
matched terminal node in place). -/
def findTree {α : Type} (n : Node α) (method url : String) : Node α :=
  match findSegs method n (goSplit '/' url) [] with
  | some (_, t) => t
  | none => n

/-! ### The dispatcher branch of `ServeHTTP` (`mux.go`) -/

/-- The three dispatch outcomes of `ServeHTTP`: `nil` node → the 404
responder, node with `nil` handler → the 405 responder, otherwise the
composed handler runs. -/
inductive Outcome (α : Type) : Type where
  | notFound : Outcome α
  | methodNotAllowed : Outcome α
  | served (h : α) : Outcome α
deriving DecidableEq

/-- `ServeHTTP`'s branching on `m.node.find(r.Method, r.URL.Path)`. -/
def serveOutcome {α : Type} (root : Node α) (method url : String) : Outcome α :=
  match find root method url with
  | none => .notFound
  | some node =>
    match node.handler with
    | none => .methodNotAllowed
    | some h => .served h

/-! ### Request context (`withContext` of `trie.go`, `Params` of `mux.go`) -/

def keyParam : Nat := 0
def keyRoute : Nat := 1

/-- A value stored in the request context: the matched node (under
`keyRoute`) or the captured-parameter map (under `keyParam`). -/
inductive CtxVal (α : Type) : Type where
  | route (n : Node α) : CtxVal α
  | params (ps : List (String × String)) : CtxVal α

/-- `context.Context` as the chain of `WithValue` layers, innermost first. -/
abbrev Context (α : Type) : Type := List (Nat × CtxVal α)

/-- `context.WithValue ctx k v`. -/
def withValue {α : Type} (ctx : Context α) (k : Nat) (v : CtxVal α) :
    Context α := (k, v) :: ctx

/-- `ctx.Value k`: innermost binding wins. -/
def ctxValue {α : Type} : Context α → Nat → Option (CtxVal α)
  | [], _ => none
  | (k, v) :: t, key => if k = key then some v else ctxValue t key

/-- `withContext`: always store the node under `keyRoute`; store the
parameter map under `keyParam` only when it is non-empty. -/
def withContext {α : Type} (n : Node α) (ctx : Context α) : Context α :=
  let c1 := withValue ctx keyRoute (.route n)
  if n.params.length > 0 then withValue c1 keyParam (.params n.params) else c1

/-- `Params(r)`: the `keyParam` context value if it is a parameter map,
else `nil` (`none`). -/
def Params {α : Type} (ctx : Context α) : Option (List (String × String)) :=
  match ctxValue ctx keyParam with
  | some (.params ps) => some ps
  | _ => none

/-! ### Erasing per-match scratch state

`scrub` zeroes the two fields `find` uses as per-call scratch space
(`params` and `handler`) on every node; two trees with the same `scrub`
image agree on all structural routing data. -/

mutual

def scrub {α : Type} : Node α → Node α
  | .mk _ mws ms cs _ pn pno re e =>
    .mk none mws ms (scrubChildren cs) [] pn (scrubOpt pno) re e

def scrubChildren {α : Type} :
    List (String × Node α) → List (String × Node α)
  | [] => []
  | (k, n) :: t => (k, scrub n) :: scrubChildren t

def scrubOpt {α : Type} : Option (Node α) → Option (Node α)
  | none => none
  | some n => some (scrub n)

end

/-! ### Small helpers over `Except` -/

/-- Did `add` return a non-nil error? -/
def isErr {β : Type} : Except String β → Bool
  | .error _ => true
  | .ok _ => false

/-- The successful result of `add`, if any. -/
def okOf {β : Type} : Except String β → Option β
  | .ok t => some t
  | .error _ => none

/-- Registration that keeps the old tree on error (every demo
registration below in fact succeeds, as the proofs that evaluate the
resulting tries show). -/
def regOrKeep {α : Type} (n : Node α) (method pattern : String)
    (h : Option α) (mws : List (Mw α)) : Node α :=
  match add n method pattern h mws with
  | .ok t => t
  | .error _ => n

/-! ### Concrete tries used by the claims (handlers are plain markers) -/

/-- `/user/list` (handler 1) and `/user/{id}` (handler 2), both `GET`. -/
def userTrie : Node Nat :=
  regOrKeep (regOrKeep newNode "GET" "/user/list" (some 1) [])
    "GET" "/user/{id}" (some 2) []

/-- `GET /files/{*rest}` (handler 5). -/
def filesTrie : Node Nat :=
  regOrKeep newNode "GET" "/files/{*rest}" (some 5) []

/-- `GET /item/{id:[0-9]+}` (handler 7). -/
def itemTrie : Node Nat :=
  regOrKeep newNode "GET" "/item/{id:[0-9]+}" (some 7) []

/-- `GET /x` (handler 1) and wildcard-method `* /y` (handler 2). -/
def xyTrie : Node Nat :=
  regOrKeep (regOrKeep newNode "GET" "/x" (some 1) []) "*" "/y" (some 2) []

/-- A middleware that tags the traced handler value with `1`. -/
def mwA : Mw (List Nat) := fun o => o.map (fun l => 1 :: l)

/-- A middleware that tags the traced handler value with `2`. -/
def mwB : Mw (List Nat) := fun o => o.map (fun l => 2 :: l)

/-- `GET /x` with base handler `[0]` and middlewares `[mwA, mwB]` in
registration order. -/
def mwTrie : Node (List Nat) :=
  regOrKeep newNode "GET" "/x" (some [0]) [mwA, mwB]

/-- Two registrations reaching the same terminal node `/x`:
`GET` with middleware `mwA`, then `POST` with middleware `mwB`. -/
def accTrie : Node (List Nat) :=
  regOrKeep (regOrKeep newNode "GET" "/x" (some [0]) [mwA])
    "POST" "/x" (some [9]) [mwB]

/-- A route without parameter or wildcard segments: `GET /ping`. -/
def pingTrie : Node Nat :=
  regOrKeep newNode "GET" "/ping" (some 3) []

/-- A parameter child as stored by a first registration: name `id`,
regex text `[0-9]+`. -/
def pDemo : Node Nat := .mk none [] [] [] [] "id" none (some "[0-9]+") false

/-- A node that already carries the parameter child `pDemo`. -/
def tDemo : Node Nat := .mk none [] [] [] [] "" (some pDemo) none false

/-! ### Misplaced wildcards

`BadAt segs i last` says: walking the raw split `segs` with the running
index starting at `i` and `lastIdx = last`, some segment is a
brace-delimited parameter whose name starts with the wildcard marker and
whose index differs from `last` — exactly the situation `add`'s
validation rejects. -/

/-- Is this raw segment a wildcard parameter segment (`{*name...}`),
parsed exactly as `add` parses it? -/
def isWildSeg (s : String) : Bool :=
  goStartsWith s prefixParam && goEndsWith s suffixParam &&
    goStartsWith ((splitN2 ':' (innerOf s)).headD "") prefixWildcard

inductive BadAt : List String → Nat → Nat → Prop where
  | here {s : String} {rest : List String} {i last : Nat} :
      isWildSeg s = true → i ≠ last → BadAt (s :: rest) i last
  | there {s : String} {rest : List String} {i last : Nat} :
      BadAt rest (i + 1) last → BadAt (s :: rest) i last

/-! ## Basic lemmas -/

section

variable {α : Type} (hd : Option α) (mws : List (Mw α)) (ms : List (String × α))
  (cs : List (String × Node α)) (ps : List (String × String)) (pn : String)
  (pno : Option (Node α)) (re : Option String) (e : Bool)

@[simp] theorem handler_mk : (Node.mk hd mws ms cs ps pn pno re e).handler = hd := rfl

@[simp] theorem middlewares_mk :
    (Node.mk hd mws ms cs ps pn pno re e).middlewares = mws := rfl

@[simp] theorem methods_mk : (Node.mk hd mws ms cs ps pn pno re e).methods = ms := rfl

@[simp] theorem children_mk : (Node.mk hd mws ms cs ps pn pno re e).children = cs := rfl

@[simp] theorem params_mk : (Node.mk hd mws ms cs ps pn pno re e).params = ps := rfl

@[simp] theorem paramName_mk :
    (Node.mk hd mws ms cs ps pn pno re e).paramName = pn := rfl

@[simp] theorem paramNode_mk :
    (Node.mk hd mws ms cs ps pn pno re e).paramNode = pno := rfl

@[simp] theorem regex_mk : (Node.mk hd mws ms cs ps pn pno re e).regex = re := rfl

@[simp] theorem isEnd_mk : (Node.mk hd mws ms cs ps pn pno re e).isEnd = e := rfl

@[simp] theorem withChildren_mk (cs2 : List (String × Node α)) :
    (Node.mk hd mws ms cs ps pn pno re e).withChildren cs2 =
      Node.mk hd mws ms cs2 ps pn pno re e := rfl

@[simp] theorem withParamNode_mk (p : Node α) :
    (Node.mk hd mws ms cs ps pn pno re e).withParamNode p =
      Node.mk hd mws ms cs ps pn (some p) re e := rfl

@[simp] theorem setScratch_mk (ps2 : List (String × String)) (h2 : Option α) :
    (Node.mk hd mws ms cs ps pn pno re e).setScratch ps2 h2 =
      Node.mk h2 mws ms cs ps2 pn pno re e := rfl

@[simp] theorem finalize_mk (method : String) (hv : α) (mwsAll : List (Mw α)) :
    (Node.mk hd mws ms cs ps pn pno re e).finalize method hv mwsAll =
      Node.mk hd mwsAll (setAssoc ms method hv) cs ps pn pno re true := rfl

@[simp] theorem scrub_mk :
    scrub (Node.mk hd mws ms cs ps pn pno re e) =
      Node.mk none mws ms (scrubChildren cs) [] pn (scrubOpt pno) re e := by
  simp [scrub]

@[simp] theorem scrubChildren_nil :
    scrubChildren ([] : List (String × Node α)) = [] := by
  simp [scrubChildren]

@[simp] theorem scrubChildren_cons (k : String) (n : Node α)
    (t : List (String × Node α)) :
    scrubChildren ((k, n) :: t) = (k, scrub n) :: scrubChildren t := by
  simp [scrubChildren]

@[simp] theorem scrubOpt_none : scrubOpt (none : Option (Node α)) = none := by
  simp [scrubOpt]

@[simp] theorem scrubOpt_some (n : Node α) :
    scrubOpt (some n) = some (scrub n) := by
  simp [scrubOpt]

end

/-- `Except.map` (Go's pass-the-error-through) preserves errorness. -/
theorem isErr_map {β γ : Type} (f : β → γ) (e : Except String β) :
    isErr (Except.map f e) = isErr e := by
  cases e <;> rfl

/-- Replacing an existing child by one with the same scrub image does not
change the scrub image of the child map. -/
theorem scrubChildren_setAssoc {α : Type} (k : String) (c c2 : Node α) :
    ∀ cs : List (String × Node α), getAssoc cs k = some c → scrub c2 = scrub c →
      scrubChildren (setAssoc cs k c2) = scrubChildren cs := by
  intro cs
  induction cs with
  | nil => intro h _; simp [getAssoc] at h
  | cons kv t ih =>
    obtain ⟨k1, v1⟩ := kv
    intro hget hsc
    by_cases hk : k1 = k
    · subst hk
      simp [getAssoc] at hget
      simp [setAssoc, hget ▸ hsc]
    · simp [getAssoc, hk] at hget
      simp [setAssoc, hk, ih hget hsc]

/-! ## Claim theorems -/

/-- Claim C3 counterexample: with middlewares `[mwA, mwB]` registered at
`/x`, the composed handler is `mwA (mwB h)` — the *first*-registered
middleware is outermost — which differs at this input from the claimed
`mwB (mwA h)` (last-registered outermost). -/
theorem middleware_order_cex :
    (find mwTrie "GET" "/x").map Node.handler = some (mwA (mwB (some [0]))) ∧
      mwA (mwB (some [0])) ≠ mwB (mwA (some [0])) :=
  ⟨rfl, by decide⟩

/-- Claim C3 (amended): the handler returned by `find` is the base
handler wrapped by applying the node's middleware list from the last
index down to index 0, i.e. `mws.foldr`: the first-registered middleware
is the outermost wrapper, so middleware executes in registration order
on the way in. -/
theorem middleware_first_outermost :
    ∀ (α : Type) (mws : List (Mw α)) (hv : α),
      (find (regOrKeep newNode "GET" "/x" (some hv) mws) "GET" "/x").map
          Node.handler =
        some (mws.foldr (fun m acc => m acc) (some hv)) := by
  intro α mws hv
  rfl

/-- Claim C6 counterexample: the wildcard route `/files/{*rest}` matched
against `/files/a/b/c` yields a match, but its parameter map has no key
`rest`: the capture is stored under the full wildcard name `*rest`. -/
theorem wildcard_key_cex :
    (find filesTrie "GET" "/files/a/b/c").isSome = true ∧
      (find filesTrie "GET" "/files/a/b/c").map
          (fun n => getAssoc n.params "rest") = some none :=
  ⟨rfl, rfl⟩

/-- Claim C6 (amended): `/files/{*rest}` matched against `/files/a/b/c`
returns `Matched` with the captured map `[("*rest", "a/b/c")]` — the key
is the wildcard's stored parameter name `*rest` (marker included) and
the value is the remaining segments joined by `/`. -/
theorem wildcard_captures_rest :
    (find filesTrie "GET" "/files/a/b/c").map
        (fun n => (n.params, n.handler)) =
      some ([("*rest", "a/b/c")], some 5) :=
  rfl

/-- Claim C7: with `/item/{id:[0-9]+}` registered, `/item/abc` does not
match; `/item/42` matches with `id = "42"` and the route's handler; and
the regex is anchored on both sides — `/item/42a`, whose segment merely
*contains* a `[0-9]+` match, is also rejected. -/
theorem regex_anchored_match :
    find itemTrie "GET" "/item/abc" = none ∧
      find itemTrie "GET" "/item/42a" = none ∧
      (find itemTrie "GET" "/item/42").map (fun n => (n.params, n.handler)) =
        some ([("id", "42")], some 7) :=
  ⟨rfl, rfl, rfl⟩

/-- Claim C8 (the code contradicts it): after registering `GET /x` with
middleware `mwA` and then `POST /x` with middleware `mwB`, the shared
terminal node holds only one middleware (the last registration's), not
two: `add` assigns `append(n.middlewares, middlewares...)` reading the
*root* receiver's (empty) list, so earlier middleware is dropped instead
of accumulated.  Consequently `GET /x` composes only `mwB` around the
base handler `[0]`, giving `[2, 0]` instead of the accumulated
`mwA (mwB [0]) = [1, 2, 0]`. -/
theorem middleware_not_accumulated :
    (getAssoc accTrie.children "x").map (fun n => n.middlewares.length) =
        some 1 ∧
      (find accTrie "GET" "/x").map Node.handler = some (some [2, 0]) :=
  ⟨rfl, rfl⟩

/-- Claim C2 counterexample: `find` does mutate the tree — after looking
up `/user/7` in the `/user/{id}` trie, the parameter node's `params`
field holds `[("id", "7")]`, where before the call it was `[]`. -/
theorem find_mutates_node_cex :
    ((getAssoc (findTree userTrie "GET" "/user/7").children "user").bind
          Node.paramNode).map Node.params = some [("id", "7")] ∧
      ((getAssoc userTrie.children "user").bind Node.paramNode).map
          Node.params = some [] :=
  ⟨rfl, rfl⟩

/-- The terminal write of `find` only touches scratch fields. -/
theorem finish_scrub {α : Type} {method : String} {node res t' : Node α}
    {ps : List (String × String)}
    (h : finish method node ps = some (res, t')) : scrub t' = scrub node := by
  unfold finish at h
  split at h
  · simp only [Option.some.injEq, Prod.mk.injEq] at h
    obtain ⟨_, ht⟩ := h
    subst ht
    cases node with
    | mk hd mws ms cs ps0 pn pno re e => simp
  · simp at h

/-- The lookup walk returns a tree whose scrub image is unchanged: only
the matched terminal's `params`/`handler` scratch fields are written. -/
theorem findSegs_scrub {α : Type} (method : String) :
    ∀ (segs : List String) (node : Node α) (ps : List (String × String))
      (res t' : Node α),
      findSegs method node segs ps = some (res, t') → scrub t' = scrub node := by
  intro segs
  induction segs with
  | nil =>
    intro node ps res t' h
    simp only [findSegs] at h
    exact finish_scrub h
  | cons s rest ih =>
    intro node ps res t' h
    simp only [findSegs] at h
    by_cases hs : s = ""
    · rw [if_pos hs] at h
      exact ih node ps res t' h
    · rw [if_neg hs] at h
      cases hc : getAssoc node.children s with
      | some child =>
        simp only [hc] at h
        cases hr : findSegs method child rest ps with
        | none => simp [hr] at h
        | some pr =>
          obtain ⟨res2, c2⟩ := pr
          simp only [hr, Option.some.injEq, Prod.mk.injEq] at h
          obtain ⟨_, ht⟩ := h
          subst ht
          have hsc : scrub c2 = scrub child := ih child ps res2 c2 hr
          cases node with
          | mk hd mws ms cs ps0 pn pno re e =>
            have hc2 : getAssoc cs s = some child := by simpa using hc
            simp [scrubChildren_setAssoc s child c2 cs hc2 hsc]
      | none =>
        simp only [hc] at h
        cases hp : node.paramNode with
        | none => simp [hp] at h
        | some p =>
          simp only [hp] at h
          by_cases hre : regexOk p.regex s = true
          · rw [if_pos hre] at h
            by_cases hw : goStartsWith p.paramName prefixWildcard = true
            · rw [if_pos hw] at h
              cases hf : finish method p
                  (setAssoc ps p.paramName (goJoin "/" (s :: rest))) with
              | none => simp [hf] at h
              | some pr =>
                obtain ⟨res2, p2⟩ := pr
                simp only [hf, Option.some.injEq, Prod.mk.injEq] at h
                obtain ⟨_, ht⟩ := h
                subst ht
                have hsc : scrub p2 = scrub p := finish_scrub hf
                cases node with
                | mk hd mws ms cs ps0 pn pno re e =>
                  have hp2 : pno = some p := by simpa using hp
                  subst hp2
                  simp [hsc]
            · rw [if_neg hw] at h
              cases hr : findSegs method p rest (setAssoc ps p.paramName s) with
              | none => simp [hr] at h
              | some pr =>
                obtain ⟨res2, p2⟩ := pr
                simp only [hr, Option.some.injEq, Prod.mk.injEq] at h
                obtain ⟨_, ht⟩ := h
                subst ht
                have hsc : scrub p2 = scrub p :=
                  ih p (setAssoc ps p.paramName s) res2 p2 hr
                cases node with
                | mk hd mws ms cs ps0 pn pno re e =>
                  have hp2 : pno = some p := by simpa using hp
                  subst hp2
                  simp [hsc]
          · rw [if_neg hre] at h
            simp at h

/-- Claim C2 (amended): a `find` call leaves every structural field of
every node unchanged — children, parameter child, parameter name, regex,
method table, middleware list, `isEnd` — but does write the per-call
capture map and composed handler into the matched terminal node's
`params`/`handler` fields (Go's scratch-on-the-node pattern).  Erasing
exactly those two scratch fields, the post-call tree equals the pre-call
tree. -/
theorem find_preserves_structure :
    ∀ (α : Type) (t : Node α) (method url : String),
      scrub (findTree t method url) = scrub t := by
  intro α t method url
  unfold findTree
  cases h : findSegs method t (goSplit '/' url) [] with
  | none => rfl
  | some pr =>
    obtain ⟨res, t2⟩ := pr
    exact findSegs_scrub method (goSplit '/' url) t [] res t2 h

/-- Claim C1: at every step of the descent, a static child consuming
exactly the current segment is followed in preference to (and
irrespective of) the parameter/wildcard child: when such a child exists
the lookup result is the result of descending into it, whatever
`paramNode` holds.  In particular, with `/user/list` and `/user/{id}`
both registered, looking up `/user/list` resolves to the static route's
terminal (handler 1) with no captured parameter. -/
theorem static_beats_param :
    (∀ (α : Type) (method s : String) (rest : List String)
        (ps : List (String × String)) (n child : Node α),
        s ≠ "" → getAssoc n.children s = some child →
        (findSegs method n (s :: rest) ps).map Prod.fst =
          (findSegs method child rest ps).map Prod.fst)
      ∧ (find userTrie "GET" "/user/list").map
            (fun n => (n.params, n.handler)) =
          some ([], some 1) := by
  constructor
  · intro α method s rest ps n child hs hc
    simp only [findSegs, if_neg hs, hc]
    cases hr : findSegs method child rest ps with
    | none => simp
    | some pr =>
      obtain ⟨res, c2⟩ := pr
      simp
  · rfl

/-- Witness for C1: the general preference rule applied at the `/user`
node of the demo trie, where both the static child `list` and the
parameter child `{id}` are candidates. -/
theorem static_beats_param_w :
    (findSegs "GET" userTrie ["user", "list"]
        ([] : List (String × String))).map Prod.fst =
      (findSegs "GET" ((getAssoc userTrie.children "user").getD newNode)
          ["list"] []).map Prod.fst :=
  static_beats_param.1 Nat "GET" "user" ["list"] [] userTrie
    ((getAssoc userTrie.children "user").getD newNode) (by decide) rfl

/-- Claim C4: with `GET /x` registered (and nothing else at `/x`),
looking up `POST /x` takes the dispatcher's 405 branch (matched node,
nil resolved handler) — `methodNotAllowed`, a constructor distinct from
the 404 outcome `notFound` — and with the wildcard method `*` registered
at `/y`, every method is served there. -/
theorem method_fallback_405 :
    serveOutcome xyTrie "POST" "/x" = Outcome.methodNotAllowed ∧
      ∀ m : String, serveOutcome xyTrie m "/y" = Outcome.served 2 := by
  refine ⟨rfl, ?_⟩
  intro m
  have hfind : find xyTrie m "/y" =
      some (Node.mk (resolveHandler [("*", (2 : Nat))] m) [] [("*", 2)] [] []
        "" none none true) := rfl
  have hres : resolveHandler [("*", (2 : Nat))] m = some 2 := by
    by_cases hm : "*" = m
    · subst hm; rfl
    · simp [resolveHandler, getAssoc, hm, prefixWildcard]
  simp only [serveOutcome, hfind, handler_mk, hres]

/-- If a raw segment is a misplaced wildcard somewhere ahead of the walk,
`add`'s segment loop returns the wildcard-position error. -/
theorem addSegs_badAt_err {α : Type} (rootMws : List (Mw α)) (method : String)
    (hv : α) (mws : List (Mw α)) :
    ∀ {segs : List String} {i last : Nat}, BadAt segs i last →
      ∀ node : Node α,
        isErr (addSegs rootMws method hv mws node segs i last) = true := by
  intro segs i last hb
  induction hb with
  | here hw hne =>
    rename_i s rest i last
    intro node
    have hs : s ≠ "" := by
      intro h; rw [h] at hw; exact absurd hw (by decide)
    have hw3 : goStartsWith ((splitN2 ':' (innerOf s)).headD "")
        prefixWildcard = true := by
      unfold isWildSeg at hw
      exact (Bool.and_eq_true_iff.mp hw).2
    have hw1 : (goStartsWith s prefixParam && goEndsWith s suffixParam) = true :=
      (Bool.and_eq_true_iff.mp hw).1
    have hwcond : (goStartsWith ((splitN2 ':' (innerOf s)).headD "")
        prefixWildcard && decide (i ≠ last)) = true := by
      rw [hw3, decide_eq_true hne]
      rfl
    simp only [addSegs]
    rw [if_neg hs, if_pos hw1, if_pos hwcond]
    rfl
  | there hb2 ih =>
    rename_i s rest i last
    intro node
    by_cases hs : s = ""
    · simp only [addSegs]
      rw [if_pos hs]
      exact ih node
    · simp only [addSegs]
      rw [if_neg hs]
      by_cases hps : (goStartsWith s prefixParam && goEndsWith s suffixParam) = true
      · rw [if_pos hps]
        by_cases hwc : (goStartsWith ((splitN2 ':' (innerOf s)).headD "")
            prefixWildcard && decide (i ≠ last)) = true
        · rw [if_pos hwc]
          rfl
        · rw [if_neg hwc, isErr_map]
          exact ih _
      · rw [if_neg hps, isErr_map]
        exact ih _

/-- Claim C5: a pattern containing a wildcard parameter segment that is
not at the final raw index of the `/`-split fails `add` with an error
(the route is not registered — no updated tree is produced). -/
theorem wildcard_must_be_last :
    ∀ (α : Type) (t : Node α) (method pattern : String) (h : Option α)
      (mws : List (Mw α)),
      BadAt (goSplit '/' pattern) 0 ((goSplit '/' pattern).length - 1) →
      isErr (add t method pattern h mws) = true := by
  intro α t method pattern h mws hb
  unfold add
  split
  · rfl
  · cases h with
    | none => simp_all
    | some hv => exact addSegs_badAt_err t.middlewares method hv mws hb t

/-- Witness for C5: `/a/{*rest}/b` has its wildcard at index 2 of 3 and
is rejected. -/
theorem wildcard_must_be_last_w :
    isErr (add (newNode : Node Nat) "GET" "/a/{*rest}/b" (some 1) []) = true :=
  wildcard_must_be_last Nat newNode "GET" "/a/{*rest}/b" (some 1) []
    (BadAt.there (BadAt.there (BadAt.here (by decide) (by decide))))

/-- Claim C9: registering a parameter segment at a position that already
has a parameter child keeps the existing child's `paramName` and `regex`
unchanged (first registration wins): the new segment's name/regex text is
parsed but discarded because the child is only created — and its
definition only set — when absent. -/
theorem param_def_first_wins :
    ∀ (α : Type) (t p : Node α) (method x : String) (hv : α)
      (mws : List (Mw α)),
      t.paramNode = some p → method ≠ "" →
      goStartsWith x prefixParam = true → goEndsWith x suffixParam = true →
      goSplit '/' x = [x] →
      ((okOf (add t method x (some hv) mws)).bind Node.paramNode).map
          (fun q => (q.paramName, q.regex)) = some (p.paramName, p.regex) := by
  intro α t p method x hv mws hpn hm h1 h2 hsplit
  have hx : x ≠ "" := by
    intro h; rw [h] at h1; exact absurd h1 (by decide)
  cases t with
  | mk hd mws0 ms cs ps pn pno re e =>
    have hpno : pno = some p := by simpa using hpn
    subst hpno
    cases p with
    | mk phd pmws pms pcs pps ppn ppno pre pe =>
      simp [add, addSegs, okOf, Except.map, hm, hx, h1, h2, hsplit]

/-- Witness for C9: re-registering `{uid:zz}` where the parameter child
`id` (regex `[0-9]+`) already exists keeps the stored definition. -/
theorem param_def_first_wins_w :
    ((okOf (add tDemo "PUT" "{uid:zz}" (some 3) [])).bind Node.paramNode).map
        (fun q => (q.paramName, q.regex)) = some ("id", some "[0-9]+") :=
  param_def_first_wins Nat tDemo pDemo "PUT" "{uid:zz}" 3 [] rfl (by decide)
    (by decide) (by decide) rfl

/-- Claim C10: when no parameter was captured the parameter map is not
placed into the request context — `Params` then returns `nil` (`none`),
not an empty map — and `Params` returns a non-`nil` map only when it is
the matched node's non-empty capture map.  The concrete conjunct runs
the full pipeline on the parameterless route `GET /ping`. -/
theorem params_skipped_when_empty :
    (∀ (α : Type) (n : Node α), n.params = [] →
        ctxValue (withContext n []) keyParam = none ∧
          Params (withContext n ([] : Context α)) = none)
      ∧ (∀ (α : Type) (n : Node α) (ps2 : List (String × String)),
          Params (withContext n ([] : Context α)) = some ps2 →
            ps2 = n.params ∧ 0 < ps2.length)
      ∧ Params (withContext ((find pingTrie "GET" "/ping").getD newNode)
          ([] : Context Nat)) = none := by
  refine ⟨?_, ?_, rfl⟩
  · intro α n hps
    unfold withContext
    rw [hps]
    simp [withValue, ctxValue, Params, keyParam, keyRoute]
  · intro α n ps2 hp
    unfold Params withContext at hp
    by_cases hl : n.params.length > 0
    · rw [if_pos hl] at hp
      simp [withValue, ctxValue, keyParam] at hp
      exact ⟨hp.symm, hp ▸ hl⟩
    · rw [if_neg hl] at hp
      simp [withValue, ctxValue, keyParam, keyRoute] at hp

/-- Witness for C10: a node with an empty capture map puts nothing under
`keyParam`, so `Params` is `nil`. -/
theorem params_skipped_when_empty_w :
    Params (withContext (newNode : Node Nat) ([] : Context Nat)) = none :=
  (params_skipped_when_empty.1 Nat newNode rfl).2

end Mux
